import Mathlib

/-!
Verification of the claude-md path/storage utilities.

The Go sources are shallowly embedded: strings are lists of characters
(`Str`), the relevant functions from the `strings` and `path/filepath`
standard-library packages are modelled for Unix path semantics
(separator `/`), and fallible operations return `Except`/`Option`.
Filesystem effects taken by the operations layer are driven by explicit
environment records describing the outcome of each system call, and the
resulting on-disk facts are tracked in explicit state records.
-/

set_option autoImplicit false
set_option maxRecDepth 10000

deriving instance DecidableEq for Except

abbrev Str := List Char

/-- Model of strings.HasPrefix: the first argument occurs at the start
of the second. -/
def leadsWith : Str → Str → Bool
  | [], _ => true
  | _ :: _, [] => false
  | a :: x, b :: y => a == b && leadsWith x y

/-- Model of strings.Contains: the first argument occurs as a contiguous
substring of the second. -/
def occursIn (needle : Str) (hay : Str) : Bool :=
  match hay with
  | [] => needle.isEmpty
  | _ :: t => leadsWith needle hay || occursIn needle t

/-- Model of strings.Split with a one-character separator. -/
def goSplit (c : Char) : Str → List Str
  | [] => [[]]
  | a :: t =>
    if a == c then [] :: goSplit c t
    else
      match goSplit c t with
      | [] => [[a]]
      | h :: r => (a :: h) :: r

/-- Model of strings.Join with a one-character separator. -/
def goJoin (c : Char) : List Str → Str
  | [] => []
  | [x] => x
  | x :: xs => x ++ c :: goJoin c xs

/-- Remove trailing occurrences of a character (used by filepath.Base). -/
def dropTrailing (c : Char) (s : Str) : Str :=
  (s.reverse.dropWhile (fun a => a == c)).reverse

def dotS : Str := ['.']

def dotdotS : Str := ['.', '.']

/-- Component processing loop of filepath.Clean: drop empty and "."
components, resolve ".." against the output stack. -/
def doClean (rooted : Bool) : List Str → List Str → List Str
  | [], out => out.reverse
  | c :: rest, out =>
    if c = [] then doClean rooted rest out
    else if c = dotS then doClean rooted rest out
    else if c = dotdotS then
      if out = [] then
        (if rooted then doClean rooted rest [] else doClean rooted rest [c])
      else if out.headD [] = dotdotS then doClean rooted rest (c :: out)
      else doClean rooted rest out.tail
    else doClean rooted rest (c :: out)

/-- Model of filepath.Clean for Unix paths. -/
def goClean (s : Str) : Str :=
  if s = [] then dotS
  else if s.head? == some '/' then '/' :: goJoin '/' (doClean true (goSplit '/' s) [])
  else if goJoin '/' (doClean false (goSplit '/' s) []) = [] then dotS
  else goJoin '/' (doClean false (goSplit '/' s) [])

/-- Model of filepath.Base for Unix paths. -/
def goBase (s : Str) : Str :=
  if s = [] then dotS
  else if dropTrailing '/' s = [] then ['/']
  else (goSplit '/' (dropTrailing '/' s)).getLastD []

/-- Model of filepath.Join for Unix paths: join the non-empty elements
with the separator, then Clean; all-empty input yields the empty path. -/
def goJoinPath (parts : List Str) : Str :=
  if parts.filter (fun p => !p.isEmpty) = [] then []
  else goClean (goJoin '/' (parts.filter (fun p => !p.isEmpty)))

/-- Model of strings.TrimPrefix. -/
def trimPre (pre s : Str) : Str :=
  if leadsWith pre s then s.drop pre.length else s

/-! ### internal/storage/paths.go -/

/-- PathConverter handles conversion between repository paths and
storage paths (internal/storage/paths.go). -/
structure PathConverter where
  StorageRoot : Str
  RepoName : Str
deriving DecidableEq

def tildeS : Str := ['~']

def pathTildeErrS : Str := "path contains ~ character which is not supported".data

/-- ValidatePath checks if the path contains the reserved tilde
character; the error message is returned on failure. -/
def ValidatePath (p : Str) : Option Str :=
  if occursIn tildeS p then some pathTildeErrS else none

def claudeMdS : Str := "CLAUDE.md".data

/-- ConvertToStorageName converts a repository relative path to a flat
storage filename (tilde-joined components). -/
def ConvertToStorageName (p : Str) : Except Str Str :=
  match ValidatePath p with
  | some e => Except.error e
  | none =>
    let cleaned := goClean p
    if cleaned = claudeMdS ∨ cleaned = goBase p then Except.ok (goBase p)
    else Except.ok (goJoin '~' (goSplit '/' cleaned))

/-- ConvertToRepoPath converts a storage filename back to a repository
relative path; returns the empty string on names containing "..". -/
def ConvertToRepoPath (s : Str) : Str :=
  if !(occursIn tildeS s) then
    if occursIn dotdotS s then [] else s
  else
    let parts := goSplit '~' s
    if parts.any (fun part => (part == dotdotS) || occursIn dotdotS part) then []
    else goJoinPath parts

/-- GetRepoStorageDir returns StorageRoot/RepoName. -/
def PathConverter.GetRepoStorageDir (pc : PathConverter) : Str :=
  goJoinPath [pc.StorageRoot, pc.RepoName]

/-- GetStoragePath composes ConvertToStorageName with the repo storage
directory. -/
def PathConverter.GetStoragePath (pc : PathConverter) (p : Str) : Except Str Str :=
  match ConvertToStorageName p with
  | Except.error e => Except.error e
  | Except.ok storageName => Except.ok (goJoinPath [pc.GetRepoStorageDir, storageName])

def dotClaudeS : Str := ".claude".data

def claudeMdDirS : Str := "claude-md".data

def failedHomeS : Str := "failed to get home directory: ".data

/-- NewPathConverter: the outcome of os.UserHomeDir is passed in
explicitly; on success the storage root is home/.claude/claude-md/user
and RepoName is the argument verbatim. -/
def NewPathConverter (homeResult : Except Str Str) (user repoName : Str) :
    Except Str PathConverter :=
  match homeResult with
  | Except.error e => Except.error (failedHomeS ++ e)
  | Except.ok home =>
      Except.ok ⟨goJoinPath [home, dotClaudeS, claudeMdDirS, user], repoName⟩

/-- Round trip of the two converters, as used by save then restore. -/
def roundTrip (p : Str) : Option Str :=
  match ConvertToStorageName p with
  | Except.error _ => none
  | Except.ok q => some (ConvertToRepoPath q)

/-! ### internal/git/repo.go -/

/-- Error values produced by ExtractRepoName, keeping the offending URL. -/
inductive UrlErr where
  | emptyUrl : UrlErr
  | invalidSSH : Str → UrlErr
  | invalidHTTPS : Str → UrlErr
  | unsupported : Str → UrlErr
deriving DecidableEq

def gitAtS : Str := "git@".data

def httpS : Str := "http://".data

def httpsS : Str := "https://".data

def colonS : Str := [':']

/-- ExtractRepoName extracts the repository name from a git remote URL
(SSH and HTTP(S) forms), preserving any extension verbatim. -/
def ExtractRepoName (remoteURL : Str) : Except UrlErr Str :=
  if remoteURL = [] then Except.error UrlErr.emptyUrl
  else if leadsWith gitAtS remoteURL && !(occursIn colonS remoteURL) then
    Except.error (UrlErr.invalidSSH remoteURL)
  else if occursIn colonS remoteURL && leadsWith gitAtS remoteURL then
    let parts := goSplit ':' remoteURL
    if parts.length < 2 ∨ parts.getD 1 [] = [] then
      Except.error (UrlErr.invalidSSH remoteURL)
    else
      let path := parts.getLastD []
      let segments := goSplit '/' path
      if segments.length = 0 ∨ segments.getLastD [] = [] then
        Except.error (UrlErr.invalidSSH remoteURL)
      else Except.ok (segments.getLastD [])
  else if leadsWith httpS remoteURL || leadsWith httpsS remoteURL then
    let u2 := trimPre httpS (trimPre httpsS remoteURL)
    let segments := goSplit '/' u2
    if segments.length < 2 then Except.error (UrlErr.invalidHTTPS remoteURL)
    else Except.ok (segments.getLastD [])
  else Except.error (UrlErr.unsupported remoteURL)

/-! ### internal/files/storage.go -/

/-- ClaudeFile represents a found CLAUDE.md file. -/
structure ClaudeFile where
  AbsolutePath : Str
  RepoRelativePath : Str
  IsSymlink : Bool
deriving DecidableEq

/-- A node of the walked file tree.  A file node carries its name,
whether it is a symlink, and whether the Lstat inside IsSymlink fails;
an errNode is an entry whose visit hands the walk callback an error. -/
inductive FsNode where
  | file : Str → Bool → Bool → FsNode
  | dir : Str → List FsNode → FsNode
  | errNode : Str → FsNode

/-- Walk errors: an access error delivered by filepath.Walk itself, or
a failing Lstat from IsSymlink. -/
inductive WalkError where
  | accessErr : Str → WalkError
  | statErr : Str → WalkError
deriving DecidableEq

/-- Relative path of a child entry. -/
def childPath (rel nm : Str) : Str :=
  if rel = [] then nm else rel ++ '/' :: nm

/-- Model of strings.EqualFold restricted to simple case folding. -/
def eqFold : Str → Str → Bool
  | [], [] => true
  | a :: xs, b :: ys => (a.toLower == b.toLower) && eqFold xs ys
  | _, _ => false

def dotGitS : Str := ".git".data

mutual

/-- One step of the filepath.Walk traversal in FindClaudeFiles: skip
.git directories, abort on errors, collect case-insensitive CLAUDE.md
files. -/
def walkNode (root rel : Str) (n : FsNode) (acc : List ClaudeFile) :
    List ClaudeFile × Option WalkError :=
  match n with
  | FsNode.errNode nm => (acc, some (WalkError.accessErr (childPath rel nm)))
  | FsNode.dir nm children =>
    if nm = dotGitS then (acc, none)
    else walkChildren root (childPath rel nm) children acc
  | FsNode.file nm isLink statBad =>
    if eqFold nm claudeMdS then
      if statBad then (acc, some (WalkError.statErr (childPath rel nm)))
      else (acc ++ [⟨goJoinPath [root, childPath rel nm], childPath rel nm, isLink⟩], none)
    else (acc, none)

/-- Walk a list of sibling entries in order, aborting at the first
error while keeping the entries accumulated so far. -/
def walkChildren (root rel : Str) (ns : List FsNode) (acc : List ClaudeFile) :
    List ClaudeFile × Option WalkError :=
  match ns with
  | [] => (acc, none)
  | n :: rest =>
    match walkNode root rel n acc with
    | (acc2, none) => walkChildren root rel rest acc2
    | (acc2, some e) => (acc2, some e)

end

/-- FindClaudeFiles finds all CLAUDE.md files under the repository root,
whose immediate children are given; mirrors the final
"return claudeFiles, err" of the Go function. -/
def FindClaudeFiles (root : Str) (rootChildren : List FsNode) :
    List ClaudeFile × Option WalkError :=
  walkChildren root [] rootChildren []

/-! ### internal/operations/save.go -/

/-- Outcome of the O_CREATE|O_EXCL open of the storage file. -/
inductive CreateOutcome where
  | created : CreateOutcome
  | alreadyExists : CreateOutcome
  | otherErr : Str → CreateOutcome
deriving DecidableEq

/-- Outcomes of the system calls performed while saving one file, in
program order. -/
structure SaveEnv where
  ensureDirErr : Option Str
  readOutcome : Except Str Str
  createOutcome : CreateOutcome
  writeErr : Option Str
  removeOrigErr : Option Str
  absOutcome : Except Str Str
  symlinkErr : Option Str
  restoreWriteErr : Option Str
deriving DecidableEq

/-- SaveResult represents the result of saving a file. -/
structure SaveResult where
  RepoRelativePath : Str
  StoragePath : Str
  Success : Bool
  Skipped : Bool
  SkipReason : Str
  Warning : Str
  Error : Option Str
deriving DecidableEq

/-- On-disk facts after processing one file: whether the storage copy
exists, whether the original regular file is still in place, and
whether the symlink was created. -/
structure SaveState where
  storagePresent : Bool
  originalPresent : Bool
  symlinkPresent : Bool
deriving DecidableEq

def skippingS : Str := "Skipping ".data

def colonSpS : Str := ": ".data

/-- Warning text of the form "Skipping p: msg". -/
def warnSkip (p msg : Str) : Str := skippingS ++ p ++ colonSpS ++ msg

def invalidPathS : Str := "invalid path".data

def alreadySymlinkS : Str := "already symlink".data

def pathConvErrS : Str := "path conversion error".data

def storageDirFailS : Str := "storage directory creation failed".data

def readFailedS : Str := "read failed".data

def storageExistsS : Str := "storage file exists".data

def storageCreateFailS : Str := "storage file creation failed".data

def writeFailedS : Str := "write failed".data

def removeFailedS : Str := "remove failed".data

def absPathFailedS : Str := "absolute path failed".data

def symlinkFailedS : Str := "symlink creation failed".data

def failedMkdirS : Str := "failed to create storage directory: ".data

def failedReadS : Str := "failed to read file: ".data

def existsAtS : Str := "storage file already exists at ".data

def failedCreateS : Str := "failed to create storage file: ".data

def failedWriteS : Str := "failed to write to storage: ".data

def failedRemoveS : Str := "failed to remove original file: ".data

def failedAbsS : Str := "failed to get absolute path: ".data

def failedSymlinkS : Str := "failed to create symlink: ".data

def critWarnAS : Str := "CRITICAL: ".data

def critWarnBS : Str := " - original file deleted but restore failed. Content saved in ".data

def critErrAS : Str :=
  "CRITICAL: failed to restore file after error (data is in storage): ".data

def critErrBS : Str := " (original error: ".data

def closeParS : Str := ")".data

/-- Processing of a single file by SaveFiles, with each system call's
outcome drawn from the environment.  The state starts from: original
present, storage copy present exactly when the exclusive create would
report that it already exists, symlink absent. -/
def saveOne (f : ClaudeFile) (pc : PathConverter) (env : SaveEnv) :
    SaveResult × SaveState :=
  let st0 : SaveState := ⟨env.createOutcome == CreateOutcome.alreadyExists, true, false⟩
  match ValidatePath f.RepoRelativePath with
  | some err =>
      (⟨f.RepoRelativePath, [], false, true, invalidPathS,
        warnSkip f.RepoRelativePath err, some err⟩, st0)
  | none =>
  if f.IsSymlink then
    (⟨f.RepoRelativePath, [], false, true, alreadySymlinkS, [], none⟩, st0)
  else
  match pc.GetStoragePath f.RepoRelativePath with
  | Except.error err =>
      (⟨f.RepoRelativePath, [], false, true, pathConvErrS,
        warnSkip f.RepoRelativePath err, some err⟩, st0)
  | Except.ok sp =>
  match env.ensureDirErr with
  | some err =>
      (⟨f.RepoRelativePath, sp, false, true, storageDirFailS,
        warnSkip f.RepoRelativePath (failedMkdirS ++ err), some err⟩, st0)
  | none =>
  match env.readOutcome with
  | Except.error err =>
      (⟨f.RepoRelativePath, sp, false, true, readFailedS,
        warnSkip f.RepoRelativePath (failedReadS ++ err), some err⟩, st0)
  | Except.ok _ =>
  match env.createOutcome with
  | CreateOutcome.alreadyExists =>
      (⟨f.RepoRelativePath, sp, false, true, storageExistsS,
        warnSkip f.RepoRelativePath (existsAtS ++ sp), none⟩,
       ⟨true, true, false⟩)
  | CreateOutcome.otherErr err =>
      (⟨f.RepoRelativePath, sp, false, true, storageCreateFailS,
        warnSkip f.RepoRelativePath (failedCreateS ++ err), some err⟩,
       ⟨false, true, false⟩)
  | CreateOutcome.created =>
  match env.writeErr with
  | some err =>
      (⟨f.RepoRelativePath, sp, false, true, writeFailedS,
        warnSkip f.RepoRelativePath (failedWriteS ++ err), some err⟩,
       ⟨false, true, false⟩)
  | none =>
  match env.removeOrigErr with
  | some err =>
      (⟨f.RepoRelativePath, sp, false, true, removeFailedS,
        warnSkip f.RepoRelativePath (failedRemoveS ++ err), some err⟩,
       ⟨false, true, false⟩)
  | none =>
  match env.absOutcome with
  | Except.error err =>
    match env.restoreWriteErr with
    | some rerr =>
        (⟨f.RepoRelativePath, sp, false, true, absPathFailedS,
          critWarnAS ++ f.RepoRelativePath ++ critWarnBS ++ sp,
          some (critErrAS ++ rerr ++ critErrBS ++ err ++ closeParS)⟩,
         ⟨true, false, false⟩)
    | none =>
        (⟨f.RepoRelativePath, sp, false, true, absPathFailedS,
          warnSkip f.RepoRelativePath (failedAbsS ++ err), some err⟩,
         ⟨false, true, false⟩)
  | Except.ok _ =>
  match env.symlinkErr with
  | some err =>
    match env.restoreWriteErr with
    | some rerr =>
        (⟨f.RepoRelativePath, sp, false, true, symlinkFailedS,
          critWarnAS ++ f.RepoRelativePath ++ critWarnBS ++ sp,
          some (critErrAS ++ rerr ++ critErrBS ++ err ++ closeParS)⟩,
         ⟨true, false, false⟩)
    | none =>
        (⟨f.RepoRelativePath, sp, false, true, symlinkFailedS,
          warnSkip f.RepoRelativePath (failedSymlinkS ++ err), some err⟩,
         ⟨false, true, false⟩)
  | none =>
      (⟨f.RepoRelativePath, sp, true, false, [], [], none⟩,
       ⟨true, false, true⟩)

/-- SaveFiles together with the tracked on-disk state of each file. -/
def SaveFilesFull (input : List (ClaudeFile × SaveEnv)) (pc : PathConverter) :
    List (SaveResult × SaveState) :=
  input.map (fun pr => saveOne pr.1 pc pr.2)

/-- SaveFiles converts CLAUDE.md files to symlinks, returning one
result per input file in order. -/
def SaveFiles (input : List (ClaudeFile × SaveEnv)) (pc : PathConverter) :
    List SaveResult :=
  (SaveFilesFull input pc).map Prod.fst

/-! ### internal/operations/restore.go -/

/-- StoredFile: a file discovered inside the storage directory. -/
structure StoredFile where
  StorageFilename : Str
  RepoRelativePath : Str
  StoragePath : Str
deriving DecidableEq

/-- What the Lstat of the restore target finds: nothing, a symlink
(with the outcome of the subsequent Readlink), or a regular file. -/
inductive TargetEntry where
  | absent : TargetEntry
  | symlinkEntry : Except Str Str → TargetEntry
  | regular : TargetEntry
deriving DecidableEq

/-- Outcomes of the system calls performed while restoring one file. -/
structure RestoreEnv where
  absRepo : Except Str Str
  absTarget : Except Str Str
  relResult : Except Str Str
  parentMissing : Bool
  target : TargetEntry
  absStorage : Except Str Str
  symlinkErr : Option Str
deriving DecidableEq

/-- RestoreResult represents the result of restoring a file. -/
structure RestoreResult where
  RepoRelativePath : Str
  Success : Bool
  Skipped : Bool
  SkipReason : Str
  Warning : Str
  StoragePath : Str
  Error : Option Str
deriving DecidableEq

def absRepoFailS : Str := "failed to get absolute repo path".data

def absTargetFailS : Str := "failed to get absolute target path".data

def escapesRepoS : Str := "path escapes repository".data

def parentMissingS : Str := "parent dir missing".data

def symlinkReadFailS : Str := "symlink read failed".data

def alreadyCorrectS : Str := "already correct".data

def wrongTargetS : Str := "wrong target".data

def fileExistsS : Str := "file exists".data

def storOpenS : Str := " (storage: ".data

def escapeWarnS : Str := "path would escape repository bounds".data

def parentWarnS : Str := "parent directory does not exist".data

def failedReadlinkS : Str := "failed to read symlink: ".data

def wrongTgtAS : Str := "symlink exists but points to ".data

def regularExistsS : Str := "regular file already exists".data

/-- Warning of the form "Skipping p: msg (storage: sp)". -/
def warnStor (p msg sp : Str) : Str :=
  skippingS ++ p ++ colonSpS ++ msg ++ storOpenS ++ sp ++ closeParS

/-- Processing of a single stored file by RestoreFiles.  The returned
Bool records whether the symlink was created; symlink creation is the
only filesystem mutation the Go loop body performs. -/
def restoreOne (stored : StoredFile) (env : RestoreEnv) : RestoreResult × Bool :=
  let p := stored.RepoRelativePath
  let sp := stored.StoragePath
  match env.absRepo with
  | Except.error err =>
      (⟨p, false, true, absRepoFailS, warnSkip p err, sp, some err⟩, false)
  | Except.ok _ =>
  match env.absTarget with
  | Except.error err =>
      (⟨p, false, true, absTargetFailS, warnSkip p err, sp, some err⟩, false)
  | Except.ok _ =>
  match env.relResult with
  | Except.error _ =>
      (⟨p, false, true, escapesRepoS, warnStor p escapeWarnS sp, sp, none⟩, false)
  | Except.ok rel =>
  if leadsWith dotdotS rel then
      (⟨p, false, true, escapesRepoS, warnStor p escapeWarnS sp, sp, none⟩, false)
  else
  if env.parentMissing then
      (⟨p, false, true, parentMissingS, warnStor p parentWarnS sp, sp, none⟩, false)
  else
  match env.target with
  | TargetEntry.symlinkEntry readRes =>
    match readRes with
    | Except.error err =>
        (⟨p, false, true, symlinkReadFailS,
          warnSkip p (failedReadlinkS ++ err), sp, some err⟩, false)
    | Except.ok cur =>
      match env.absStorage with
      | Except.error err =>
          (⟨p, false, true, absPathFailedS,
            warnSkip p (failedAbsS ++ err), sp, some err⟩, false)
      | Except.ok absSP =>
        if cur = absSP then
          (⟨p, false, true, alreadyCorrectS, [], sp, none⟩, false)
        else
          (⟨p, false, true, wrongTargetS,
            warnStor p (wrongTgtAS ++ cur) sp, sp, none⟩, false)
  | TargetEntry.regular =>
      (⟨p, false, true, fileExistsS, warnStor p regularExistsS sp, sp, none⟩, false)
  | TargetEntry.absent =>
    match env.absStorage with
    | Except.error err =>
        (⟨p, false, true, absPathFailedS,
          warnSkip p (failedAbsS ++ err), sp, some err⟩, false)
    | Except.ok _ =>
      match env.symlinkErr with
      | some err =>
          (⟨p, false, true, symlinkFailedS,
            warnSkip p (failedSymlinkS ++ err), sp, some err⟩, false)
      | none =>
          (⟨p, true, false, [], [], sp, none⟩, true)

/-- RestoreFiles with the created-symlink flag of each file. -/
def RestoreFilesFull (input : List (StoredFile × RestoreEnv)) :
    List (RestoreResult × Bool) :=
  input.map (fun pr => restoreOne pr.1 pr.2)

/-- RestoreFiles creates symlinks for stored files, one result per
input in order. -/
def RestoreFiles (input : List (StoredFile × RestoreEnv)) : List RestoreResult :=
  (RestoreFilesFull input).map Prod.fst

/-! ### internal/operations/clear.go -/

/-- Outcomes of the system calls performed while clearing one symlink:
Readlink, the make-absolute resolution (none means it failed and the
raw target is used as-is), and the final Remove. -/
structure ClearEnv where
  readlinkOutcome : Except Str Str
  absOutcome : Option Str
  removeErr : Option Str
deriving DecidableEq

/-- ClearResult represents the result of clearing a symlink. -/
structure ClearResult where
  RepoRelativePath : Str
  Success : Bool
  Skipped : Bool
  SkipReason : Str
  Error : Option Str
deriving DecidableEq

def readSymlinkFailS : Str := "failed to read symlink".data

def outsideStorageS : Str := "symlink points outside storage".data

/-- The make-absolute step of ClearSymlinks: a failed resolution falls
back to the raw symlink target. -/
def resolveAbs (env : ClearEnv) (target : Str) : Str :=
  match env.absOutcome with
  | some a => a
  | none => target

/-- Loop body of ClearSymlinks: non-symlinks yield no record at all;
the returned Bool records whether the symlink was removed. -/
def clearOne (f : ClaudeFile) (env : ClearEnv) (storageDir : Str) :
    Option (ClearResult × Bool) :=
  if f.IsSymlink = false then none
  else
    match env.readlinkOutcome with
    | Except.error err =>
        some (⟨f.RepoRelativePath, false, true, readSymlinkFailS, some err⟩, false)
    | Except.ok target =>
      if leadsWith storageDir (resolveAbs env target) = false then
        some (⟨f.RepoRelativePath, false, true, outsideStorageS, none⟩, false)
      else
        match env.removeErr with
        | some err => some (⟨f.RepoRelativePath, false, false, [], some err⟩, false)
        | none => some (⟨f.RepoRelativePath, true, false, [], none⟩, true)

/-- ClearSymlinks removes CLAUDE.md symlinks.  The discovery outcome of
FindClaudeFiles is passed in as the discovered files (paired with the
per-file system-call outcomes) and the walk error; a discovery error
yields an empty result list. -/
def ClearSymlinks (discovered : List (ClaudeFile × ClearEnv))
    (discErr : Option WalkError) (pc : PathConverter) :
    List (ClearResult × Bool) :=
  match discErr with
  | some _ => []
  | none => discovered.filterMap (fun pr => clearOne pr.1 pr.2 pc.GetRepoStorageDir)

/-! ### cmd/save.go -/

/-- One step of the counter loop in runSave. -/
def saveTally (acc : Nat × Nat × Nat) (r : SaveResult) : Nat × Nat × Nat :=
  if r.Success then (acc.1 + 1, acc.2.1, acc.2.2)
  else if r.Skipped then (acc.1, acc.2.1 + 1, acc.2.2)
  else if r.Error.isSome then (acc.1, acc.2.1, acc.2.2 + 1)
  else acc

/-- The (saved, skipped, errors) counters printed by runSave's summary. -/
def runSaveCounters (rs : List SaveResult) : Nat × Nat × Nat :=
  rs.foldl saveTally (0, 0, 0)

/-! ### Helper lemmas about the string model -/

theorem leadsWith_ex (n : Str) : ∀ s, leadsWith n s = true ↔ ∃ b, s = n ++ b := by
  induction n with
  | nil => intro s; simp [leadsWith]
  | cons a x ih =>
    intro s
    cases s with
    | nil => simp [leadsWith]
    | cons b y =>
      simp only [leadsWith, Bool.and_eq_true, beq_iff_eq, ih, List.cons_append]
      constructor
      · rintro ⟨rfl, b', rfl⟩; exact ⟨b', rfl⟩
      · rintro ⟨b', hb⟩
        injection hb with h1 h2
        exact ⟨h1.symm, b', h2⟩

theorem occursIn_ex (n : Str) : ∀ s, occursIn n s = true ↔ ∃ a b, s = a ++ n ++ b := by
  intro s
  induction s with
  | nil =>
    cases n with
    | nil => simp [occursIn]
    | cons c t => simp [occursIn]
  | cons c t ih =>
    simp only [occursIn, Bool.or_eq_true, leadsWith_ex, ih]
    constructor
    · rintro (⟨b, hb⟩ | ⟨a, b, hab⟩)
      · exact ⟨[], b, by simpa using hb⟩
      · exact ⟨c :: a, b, by simp [hab]⟩
    · rintro ⟨a, b, hab⟩
      cases a with
      | nil => exact Or.inl ⟨b, by simpa using hab⟩
      | cons a0 a' =>
        injection hab with h1 h2
        exact Or.inr ⟨a', b, by simpa using h2⟩

theorem occursIn_singleton (c : Char) (s : Str) : occursIn [c] s = true ↔ c ∈ s := by
  induction s with
  | nil => simp [occursIn]
  | cons a t ih =>
    have hl : leadsWith [c] (a :: t) = (c == a) := by simp [leadsWith]
    simp only [occursIn, hl, Bool.or_eq_true, beq_iff_eq, ih, List.mem_cons]

theorem occursIn_of_piece (n a b s : Str) (hs : s = a ++ n ++ b) :
    occursIn n s = true := (occursIn_ex n s).mpr ⟨a, b, hs⟩

theorem goSplit_ne_nil (c : Char) (s : Str) : goSplit c s ≠ [] := by
  cases s with
  | nil => simp [goSplit]
  | cons a t =>
    simp only [goSplit]
    split
    · exact List.cons_ne_nil _ _
    · split
      · exact List.cons_ne_nil _ _
      · exact List.cons_ne_nil _ _

theorem goJoin_goSplit (c : Char) (s : Str) : goJoin c (goSplit c s) = s := by
  induction s with
  | nil => rfl
  | cons a t ih =>
    simp only [goSplit]
    by_cases hac : a = c
    · subst hac
      simp only [beq_self_eq_true, if_true]
      cases hsp : goSplit a t with
      | nil => exact absurd hsp (goSplit_ne_nil a t)
      | cons h r =>
        rw [hsp] at ih
        simpa [goJoin] using ih
    · simp only [beq_iff_eq, hac, if_false]
      cases hsp : goSplit c t with
      | nil => exact absurd hsp (goSplit_ne_nil c t)
      | cons h r =>
        rw [hsp] at ih
        cases r with
        | nil => simpa [goJoin] using congrArg (a :: ·) ih
        | cons r0 rt =>
          simp only [goJoin, List.cons_append] at ih ⊢
          rw [← ih]

theorem goJoin_append_cons (c : Char) (p : Str) : ∀ (l1 l2 : List Str),
    goJoin c (l1 ++ p :: l2) =
      (goJoin c l1 ++ (if l1 = [] then ([] : Str) else [c])) ++ p ++
        ((if l2 = [] then ([] : Str) else [c]) ++ goJoin c l2) := by
  intro l1
  induction l1 with
  | nil =>
    intro l2
    cases l2 with
    | nil => simp [goJoin]
    | cons x xs => simp [goJoin]
  | cons y ys ihy =>
    intro l2
    cases ys with
    | nil =>
      cases l2 with
      | nil => simp [goJoin]
      | cons x xs => simp [goJoin]
    | cons z zs =>
      show goJoin c (y :: z :: (zs ++ p :: l2)) = _
      have hstep : goJoin c (y :: z :: (zs ++ p :: l2)) =
          y ++ c :: goJoin c (z :: (zs ++ p :: l2)) := rfl
      rw [hstep]
      have hz := ihy l2
      have hz2 : goJoin c (z :: (zs ++ p :: l2)) =
          (goJoin c (z :: zs) ++ [c]) ++ p ++
            ((if l2 = [] then ([] : Str) else [c]) ++ goJoin c l2) := by
        simpa using hz
      rw [hz2]
      simp [goJoin, List.append_assoc]

theorem mem_goSplit_no_occursIn (n : Str) (c : Char) (s : Str)
    (h : occursIn n s = false) :
    ∀ p ∈ goSplit c s, occursIn n p = false := by
  intro p hp
  by_contra hocc
  rw [Bool.not_eq_false] at hocc
  obtain ⟨a, b, hab⟩ := (occursIn_ex n p).mp hocc
  obtain ⟨l1, l2, hl⟩ := List.append_of_mem hp
  have hps : s = (goJoin c l1 ++ (if l1 = [] then ([] : Str) else [c])) ++ p ++
      ((if l2 = [] then ([] : Str) else [c]) ++ goJoin c l2) := by
    rw [← goJoin_goSplit c s, hl, goJoin_append_cons]
  have hocc2 : occursIn n s = true := by
    refine occursIn_of_piece n
      ((goJoin c l1 ++ (if l1 = [] then ([] : Str) else [c])) ++ a)
      (b ++ ((if l2 = [] then ([] : Str) else [c]) ++ goJoin c l2)) s ?_
    rw [hps, hab]
    simp [List.append_assoc]
  simp [hocc2] at h

theorem goSplit_no_sep (c : Char) (s : Str) (h : c ∉ s) : goSplit c s = [s] := by
  induction s with
  | nil => rfl
  | cons a t ih =>
    have h1 : ¬(c = a) ∧ c ∉ t := by simpa [List.mem_cons] using h
    have hac : (a == c) = false := by
      simp only [beq_eq_false_iff_ne, ne_eq]
      exact fun he => h1.1 he.symm
    simp only [goSplit, hac, Bool.false_eq_true, if_false, ih h1.2]

theorem goSplit_append_sep (c : Char) (rest : Str) : ∀ (x : Str), c ∉ x →
    goSplit c (x ++ c :: rest) = x :: goSplit c rest := by
  intro x
  induction x with
  | nil => intro _; simp [goSplit]
  | cons a x' ih =>
    intro h
    have h1 : ¬(c = a) ∧ c ∉ x' := by simpa [List.mem_cons] using h
    have hac : (a == c) = false := by
      simp only [beq_eq_false_iff_ne, ne_eq]
      exact fun he => h1.1 he.symm
    simp only [List.cons_append, goSplit, hac, Bool.false_eq_true, if_false]
    rw [show x'.append (c :: rest) = x' ++ c :: rest from rfl, ih h1.2]

theorem goSplit_goJoin (c : Char) : ∀ (l : List Str), l ≠ [] →
    (∀ x ∈ l, c ∉ x) → goSplit c (goJoin c l) = l := by
  intro l
  induction l with
  | nil => intro h; exact absurd rfl h
  | cons x xs ih =>
    intro _ hmem
    cases xs with
    | nil => simpa [goJoin] using goSplit_no_sep c x (hmem x (by simp))
    | cons y ys =>
      have hj : goJoin c (x :: y :: ys) = x ++ c :: goJoin c (y :: ys) := rfl
      rw [hj, goSplit_append_sep c _ x (hmem x (by simp)),
        ih (by simp) (fun z hz => hmem z (List.mem_cons_of_mem x hz))]

theorem goJoin_ne_nil (c : Char) (x : Str) (xs : List Str) (hx : x ≠ []) :
    goJoin c (x :: xs) ≠ [] := by
  cases xs with
  | nil => exact hx
  | cons y ys =>
    have hj : goJoin c (x :: y :: ys) = x ++ c :: goJoin c (y :: ys) := rfl
    rw [hj]
    simp

theorem goJoin_head (c : Char) (x : Str) (xs : List Str) (hx : x ≠ []) :
    (goJoin c (x :: xs)).head? = x.head? := by
  cases xs with
  | nil => rfl
  | cons y ys =>
    cases x with
    | nil => exact absurd rfl hx
    | cons a t => rfl

theorem myGetLastD_mem {α : Type} (l : List α) (d : α) (h : l ≠ []) :
    l.getLastD d ∈ l := by
  induction l with
  | nil => exact absurd rfl h
  | cons x xs ih =>
    cases xs with
    | nil => simp
    | cons y ys =>
      have : (x :: y :: ys).getLastD d = (y :: ys).getLastD d := by
        simp [List.getLastD]
      rw [this]
      exact List.mem_cons_of_mem x (ih (by simp))

theorem dropTrailing_eq_self (c : Char) (s : Str) (h : s.getLast? ≠ some c) :
    dropTrailing c s = s := by
  unfold dropTrailing
  cases hrev : s.reverse with
  | nil =>
    have : s = [] := by simpa using congrArg List.reverse hrev
    simp [this]
  | cons a t =>
    have hlast : s.getLast? = some a := by
      rw [← List.head?_reverse, hrev]; rfl
    have hac : (a == c) = false := by
      simp only [beq_eq_false_iff_ne, ne_eq]
      intro he
      exact h (he ▸ hlast)
    have hdw : List.dropWhile (fun ch => ch == c) (a :: t) = a :: t :=
      List.dropWhile_cons_of_neg (by simp [hac])
    rw [hdw, ← hrev, List.reverse_reverse]

theorem doClean_cons (rooted : Bool) (x : Str) (xs out : List Str) :
    doClean rooted (x :: xs) out =
      if x = [] then doClean rooted xs out
      else if x = dotS then doClean rooted xs out
      else if x = dotdotS then
        if out = [] then
          (if rooted then doClean rooted xs [] else doClean rooted xs [x])
        else if out.headD [] = dotdotS then doClean rooted xs (x :: out)
        else doClean rooted xs out.tail
      else doClean rooted xs (x :: out) := by
  rw [doClean.eq_def]

theorem doClean_push (rooted : Bool) : ∀ (comps out : List Str),
    (∀ x ∈ comps, x ≠ [] ∧ x ≠ dotS ∧ x ≠ dotdotS) →
    doClean rooted comps out = out.reverse ++ comps := by
  intro comps
  induction comps with
  | nil => intro out _; simp [doClean]
  | cons x xs ih =>
    intro out hx
    obtain ⟨hne, hd, hdd⟩ := hx x (by simp)
    rw [doClean_cons, if_neg hne, if_neg hd, if_neg hdd,
      ih (x :: out) (fun z hz => hx z (List.mem_cons_of_mem x hz))]
    simp

theorem doClean_subset (rooted : Bool) : ∀ (comps out : List Str),
    ∀ z ∈ doClean rooted comps out, z ∈ comps ∨ z ∈ out := by
  intro comps
  induction comps with
  | nil =>
    intro out z hz
    right
    simpa [doClean] using hz
  | cons x xs ih =>
    intro out z hz
    rw [doClean_cons] at hz
    by_cases h1 : x = []
    · rw [if_pos h1] at hz
      rcases ih out z hz with h | h
      · exact Or.inl (List.mem_cons_of_mem _ h)
      · exact Or.inr h
    rw [if_neg h1] at hz
    by_cases h2 : x = dotS
    · rw [if_pos h2] at hz
      rcases ih out z hz with h | h
      · exact Or.inl (List.mem_cons_of_mem _ h)
      · exact Or.inr h
    rw [if_neg h2] at hz
    by_cases h3 : x = dotdotS
    · rw [if_pos h3] at hz
      by_cases hout : out = []
      · rw [if_pos hout] at hz
        by_cases hr : rooted = true
        · rw [if_pos hr] at hz
          rcases ih [] z hz with h | h
          · exact Or.inl (List.mem_cons_of_mem _ h)
          · simp at h
        · rw [if_neg hr] at hz
          rcases ih [x] z hz with h | h
          · exact Or.inl (List.mem_cons_of_mem _ h)
          · simp at h
            exact Or.inl (h ▸ List.mem_cons_self x xs)
      · rw [if_neg hout] at hz
        by_cases ho : out.headD [] = dotdotS
        · rw [if_pos ho] at hz
          rcases ih (x :: out) z hz with h | h
          · exact Or.inl (List.mem_cons_of_mem _ h)
          · rcases List.mem_cons.mp h with h | h
            · exact Or.inl (h ▸ List.mem_cons_self x xs)
            · exact Or.inr h
        · rw [if_neg ho] at hz
          rcases ih out.tail z hz with h | h
          · exact Or.inl (List.mem_cons_of_mem _ h)
          · exact Or.inr (List.mem_of_mem_tail h)
    rw [if_neg h3] at hz
    rcases ih (x :: out) z hz with h | h
    · exact Or.inl (List.mem_cons_of_mem _ h)
    · rcases List.mem_cons.mp h with h | h
      · exact Or.inl (h ▸ List.mem_cons_self x xs)
      · exact Or.inr h

theorem goJoin_getLast (c : Char) : ∀ (xs : List Str) (x : Str), x ≠ [] →
    (∀ z ∈ xs, z ≠ []) →
    (goJoin c (x :: xs)).getLast? = ((x :: xs).getLastD []).getLast? := by
  intro xs
  induction xs with
  | nil => intro x hx _; rfl
  | cons y ys ih =>
    intro x hx hall
    have hy : y ≠ [] := hall y (by simp)
    have hj : goJoin c (x :: y :: ys) = x ++ c :: goJoin c (y :: ys) := rfl
    rw [hj, List.getLast?_append_cons]
    have hne : goJoin c (y :: ys) ≠ [] := goJoin_ne_nil c y ys hy
    obtain ⟨b, r, hbr⟩ := List.exists_cons_of_ne_nil hne
    rw [hbr, List.getLast?_cons_cons, ← hbr,
      ih y hy (fun z hz => hall z (List.mem_cons_of_mem y hz))]
    have hLD : (x :: y :: ys).getLastD [] = (y :: ys).getLastD [] := by
      simp [List.getLastD]
    rw [hLD]

theorem goBase_goJoin (comps : List Str) (h1 : comps ≠ [])
    (h2 : ∀ x ∈ comps, x ≠ [] ∧ '/' ∉ x) :
    goBase (goJoin '/' comps) = comps.getLastD [] := by
  obtain ⟨x, xs, rfl⟩ := List.exists_cons_of_ne_nil h1
  have hx := h2 x (by simp)
  have hne : goJoin '/' (x :: xs) ≠ [] := goJoin_ne_nil '/' x xs hx.1
  have hlastmem : (x :: xs).getLastD [] ∈ x :: xs := myGetLastD_mem _ _ (by simp)
  have hlast_ne : (x :: xs).getLastD [] ≠ [] := (h2 _ hlastmem).1
  have hlast_noslash : '/' ∉ (x :: xs).getLastD [] := (h2 _ hlastmem).2
  have hgl : (goJoin '/' (x :: xs)).getLast? = ((x :: xs).getLastD []).getLast? :=
    goJoin_getLast '/' xs x hx.1 (fun z hz => (h2 z (List.mem_cons_of_mem x hz)).1)
  have hlast_ne_slash : (goJoin '/' (x :: xs)).getLast? ≠ some '/' := by
    rw [hgl]
    intro hcon
    have hmem : '/' ∈ (x :: xs).getLastD [] := by
      obtain ⟨hh, he⟩ := List.mem_getLast?_eq_getLast (by simpa using hcon)
      exact he ▸ List.getLast_mem hh
    exact hlast_noslash hmem
  have hdt : dropTrailing '/' (goJoin '/' (x :: xs)) = goJoin '/' (x :: xs) :=
    dropTrailing_eq_self '/' _ hlast_ne_slash
  unfold goBase
  rw [if_neg hne, hdt, if_neg hne,
    goSplit_goJoin '/' (x :: xs) (by simp) (fun z hz => (h2 z hz).2)]

theorem goClean_eq_self (comps : List Str) (h1 : comps ≠ [])
    (h2 : ∀ x ∈ comps, x ≠ [] ∧ x ≠ dotS ∧ x ≠ dotdotS ∧ '/' ∉ x) :
    goClean (goJoin '/' comps) = goJoin '/' comps := by
  obtain ⟨x, xs, rfl⟩ := List.exists_cons_of_ne_nil h1
  have hx := h2 x (by simp)
  have hne : goJoin '/' (x :: xs) ≠ [] := goJoin_ne_nil '/' x xs hx.1
  have hrooted : ((goJoin '/' (x :: xs)).head? == some '/') = false := by
    rw [goJoin_head '/' x xs hx.1]
    obtain ⟨a, t, rfl⟩ := List.exists_cons_of_ne_nil hx.1
    have ha : a ≠ '/' := fun he => hx.2.2.2 (he ▸ List.mem_cons_self a t)
    simpa using ha
  have hsplit : goSplit '/' (goJoin '/' (x :: xs)) = x :: xs :=
    goSplit_goJoin '/' (x :: xs) (by simp) (fun z hz => (h2 z hz).2.2.2)
  have hclean : doClean false (goSplit '/' (goJoin '/' (x :: xs))) [] = x :: xs := by
    rw [hsplit]
    simpa using doClean_push false (x :: xs) []
      (fun z hz => ⟨(h2 z hz).1, (h2 z hz).2.1, (h2 z hz).2.2.1⟩)
  unfold goClean
  rw [if_neg hne, hrooted]
  simp only [Bool.false_eq_true, if_false]
  rw [hclean, if_neg hne]

theorem goClean_ne_nil (s : Str) : goClean s ≠ [] := by
  unfold goClean
  split
  · simp [dotS]
  · split
    · simp
    · split
      · simp [dotS]
      · rename_i h3
        exact h3

theorem goJoinPath_ne_nil (parts : List Str) (x : Str) (hx : x ∈ parts)
    (hne : x ≠ []) : goJoinPath parts ≠ [] := by
  unfold goJoinPath
  have hmem : x ∈ parts.filter (fun p => !p.isEmpty) := by
    rw [List.mem_filter]
    exact ⟨hx, by simpa using hne⟩
  split
  · rename_i hf
    rw [hf] at hmem
    simp at hmem
  · exact goClean_ne_nil _

theorem occursIn_dd_sep_append (r : Str) : ∀ (x : Str),
    occursIn dotdotS (x ++ '/' :: r) = (occursIn dotdotS x || occursIn dotdotS r) := by
  intro x
  induction x with
  | nil =>
    have h1 : leadsWith dotdotS ('/' :: r) = false := by
      simp [dotdotS, leadsWith, show (('.' : Char) == '/') = false from by decide]
    show occursIn dotdotS ('/' :: r) = (occursIn dotdotS [] || occursIn dotdotS r)
    rw [show occursIn dotdotS ('/' :: r) =
      (leadsWith dotdotS ('/' :: r) || occursIn dotdotS r) from rfl, h1,
      show occursIn dotdotS [] = false from rfl]
  | cons a x' ih =>
    have hkey : leadsWith dotdotS (a :: (x' ++ '/' :: r)) = leadsWith dotdotS (a :: x') := by
      cases x' with
      | nil =>
        simp [dotdotS, leadsWith, show (('.' : Char) == '/') = false from by decide]
      | cons b x'' => simp [dotdotS, leadsWith]
    rw [show occursIn dotdotS ((a :: x') ++ '/' :: r) =
      (leadsWith dotdotS (a :: (x' ++ '/' :: r)) || occursIn dotdotS (x' ++ '/' :: r)) from rfl]
    rw [hkey, ih]
    rw [show occursIn dotdotS (a :: x') =
      (leadsWith dotdotS (a :: x') || occursIn dotdotS x') from rfl]
    simp [Bool.or_assoc]

theorem goJoin_no_dd (l : List Str) (h : ∀ p ∈ l, occursIn dotdotS p = false) :
    occursIn dotdotS (goJoin '/' l) = false := by
  induction l with
  | nil => rfl
  | cons x xs ih =>
    cases xs with
    | nil => exact h x (by simp)
    | cons y ys =>
      have hj : goJoin '/' (x :: y :: ys) = x ++ '/' :: goJoin '/' (y :: ys) := rfl
      rw [hj, occursIn_dd_sep_append, h x (by simp),
        ih (fun p hp => h p (List.mem_cons_of_mem x hp))]
      rfl

theorem goClean_no_dd (s : Str) (h : occursIn dotdotS s = false) :
    occursIn dotdotS (goClean s) = false := by
  have hparts : ∀ p ∈ goSplit '/' s, occursIn dotdotS p = false :=
    mem_goSplit_no_occursIn dotdotS '/' s h
  have hout : ∀ (rooted : Bool), ∀ p ∈ doClean rooted (goSplit '/' s) [],
      occursIn dotdotS p = false := by
    intro rooted p hp
    rcases doClean_subset rooted (goSplit '/' s) [] p hp with hmem | hmem
    · exact hparts p hmem
    · simp at hmem
  unfold goClean
  split
  · decide
  · split
    · have hjoin : occursIn dotdotS (goJoin '/' (doClean true (goSplit '/' s) [])) = false :=
        goJoin_no_dd _ (hout true)
      have hlw : leadsWith dotdotS
          ('/' :: goJoin '/' (doClean true (goSplit '/' s) [])) = false := by
        simp [dotdotS, leadsWith, show (('.' : Char) == '/') = false from by decide]
      show (leadsWith dotdotS ('/' :: goJoin '/' (doClean true (goSplit '/' s) [])) ||
        occursIn dotdotS (goJoin '/' (doClean true (goSplit '/' s) []))) = false
      rw [hlw, hjoin]
      rfl
    · split
      · decide
      · exact goJoin_no_dd _ (hout false)

theorem goJoinPath_no_dd (parts : List Str)
    (h : ∀ p ∈ parts, occursIn dotdotS p = false) :
    occursIn dotdotS (goJoinPath parts) = false := by
  unfold goJoinPath
  split
  · rfl
  · exact goClean_no_dd _ (goJoin_no_dd _ (fun p hp => h p (List.mem_of_mem_filter hp)))

theorem mem_goJoin (c : Char) : ∀ (l : List Str) (a : Char),
    a ∈ goJoin c l → a = c ∨ ∃ x ∈ l, a ∈ x := by
  intro l
  induction l with
  | nil => intro a ha; simp [goJoin] at ha
  | cons x xs ih =>
    intro a ha
    cases xs with
    | nil => exact Or.inr ⟨x, by simp, ha⟩
    | cons y ys =>
      rw [show goJoin c (x :: y :: ys) = x ++ c :: goJoin c (y :: ys) from rfl] at ha
      rcases List.mem_append.mp ha with h | h
      · exact Or.inr ⟨x, by simp, h⟩
      · rcases List.mem_cons.mp h with h | h
        · exact Or.inl h
        · rcases ih a h with h | ⟨z, hz, haz⟩
          · exact Or.inl h
          · exact Or.inr ⟨z, List.mem_cons_of_mem x hz, haz⟩

theorem filter_nonempty_eq_self (l : List Str) (h : ∀ x ∈ l, x ≠ []) :
    l.filter (fun p => !p.isEmpty) = l := by
  induction l with
  | nil => rfl
  | cons x xs ih =>
    rw [List.filter_cons_of_pos (by simpa using h x (by simp)),
      ih (fun z hz => h z (List.mem_cons_of_mem x hz))]

theorem no_tilde_goJoin (comps : List Str)
    (h2 : ∀ x ∈ comps, '~' ∉ x) :
    occursIn tildeS (goJoin '/' comps) = false := by
  by_contra hc
  rw [Bool.not_eq_false] at hc
  have hmem : '~' ∈ goJoin '/' comps := (occursIn_singleton '~' _).mp hc
  rcases mem_goJoin '/' comps '~' hmem with h | ⟨x, hx, hax⟩
  · exact absurd h (by decide)
  · exact h2 x hx hax

theorem dd_self : occursIn dotdotS dotdotS = true := by decide

theorem storage_name_multi (comps : List Str) (x y : Str) (ys : List Str)
    (hc : comps = x :: y :: ys)
    (h2 : ∀ c ∈ comps, c ≠ [] ∧ c ≠ dotS ∧ '~' ∉ c ∧ '/' ∉ c ∧
      occursIn dotdotS c = false) :
    ConvertToStorageName (goJoin '/' comps) =
      Except.ok (goJoin '~' comps) := by
  subst hc
  have hgood : ∀ c ∈ x :: y :: ys, c ≠ [] ∧ c ≠ dotS ∧ c ≠ dotdotS ∧ '/' ∉ c := by
    intro c hcm
    obtain ⟨a1, a2, _, a4, a5⟩ := h2 c hcm
    refine ⟨a1, a2, ?_, a4⟩
    intro he
    rw [he, dd_self] at a5
    cases a5
  have hval : ValidatePath (goJoin '/' (x :: y :: ys)) = none := by
    unfold ValidatePath
    rw [no_tilde_goJoin _ (fun z hz => (h2 z hz).2.2.1)]
    rfl
  have hcleaned : goClean (goJoin '/' (x :: y :: ys)) = goJoin '/' (x :: y :: ys) :=
    goClean_eq_self _ (by simp)
      (fun z hz => ⟨(hgood z hz).1, (hgood z hz).2.1, (hgood z hz).2.2.1, (hgood z hz).2.2.2⟩)
  have hbase : goBase (goJoin '/' (x :: y :: ys)) = (x :: y :: ys).getLastD [] :=
    goBase_goJoin _ (by simp) (fun z hz => ⟨(hgood z hz).1, (hgood z hz).2.2.2⟩)
  have hslash : '/' ∈ goJoin '/' (x :: y :: ys) := by
    rw [show goJoin '/' (x :: y :: ys) = x ++ '/' :: goJoin '/' (y :: ys) from rfl]
    simp
  have hne1 : goJoin '/' (x :: y :: ys) ≠ claudeMdS := by
    intro he
    rw [he] at hslash
    exact absurd hslash (by decide)
  have hne2 : goJoin '/' (x :: y :: ys) ≠ goBase (goJoin '/' (x :: y :: ys)) := by
    rw [hbase]
    intro he
    rw [he] at hslash
    exact (hgood _ (myGetLastD_mem _ _ (by simp))).2.2.2 hslash
  have hres : ConvertToStorageName (goJoin '/' (x :: y :: ys)) =
      (if goClean (goJoin '/' (x :: y :: ys)) = claudeMdS ∨
          goClean (goJoin '/' (x :: y :: ys)) = goBase (goJoin '/' (x :: y :: ys)) then
        Except.ok (goBase (goJoin '/' (x :: y :: ys)))
      else Except.ok (goJoin '~' (goSplit '/' (goClean (goJoin '/' (x :: y :: ys)))))) := by
    unfold ConvertToStorageName
    rw [hval]
  rw [hres, hcleaned, if_neg (by rintro (he | he); exacts [hne1 he, hne2 he]),
    goSplit_goJoin '/' (x :: y :: ys) (by simp) (fun z hz => (hgood z hz).2.2.2)]

/-- C1 counterexample: the input "CLAUDE..md" is a repository-relative
path with no tilde and no ".." path component, yet the round trip of
the converters yields the empty-string sentinel, not the path itself. -/
theorem round_trip_c1_cex :
    occursIn tildeS (("CLAUDE..md").data) = false ∧
    dotdotS ∉ goSplit '/' (("CLAUDE..md").data) ∧
    roundTrip (("CLAUDE..md").data) = some [] ∧
    roundTrip (("CLAUDE..md").data) ≠ some (("CLAUDE..md").data) := by decide

/-- C1 (amended): for every repository-relative path built by joining a
nonempty list of components with the path separator, where every
component is nonempty, is not ".", and contains no tilde, no slash and
no occurrence of "..", applying ConvertToStorageName and then
ConvertToRepoPath yields the path again. -/
theorem round_trip_c1 (comps : List Str) (h1 : comps ≠ [])
    (h2 : ∀ c ∈ comps, c ≠ [] ∧ c ≠ dotS ∧ '~' ∉ c ∧ '/' ∉ c ∧
      occursIn dotdotS c = false) :
    roundTrip (goJoin '/' comps) = some (goJoin '/' comps) := by
  obtain ⟨x, xs, rfl⟩ := List.exists_cons_of_ne_nil h1
  have hgood : ∀ c ∈ x :: xs, c ≠ [] ∧ c ≠ dotS ∧ c ≠ dotdotS ∧ '/' ∉ c := by
    intro c hcm
    obtain ⟨a1, a2, _, a4, a5⟩ := h2 c hcm
    refine ⟨a1, a2, ?_, a4⟩
    intro he
    rw [he, dd_self] at a5
    cases a5
  cases xs with
  | nil =>
    -- single root-level component: the storage name is the component itself
    have hval : ValidatePath (goJoin '/' [x]) = none := by
      unfold ValidatePath
      rw [no_tilde_goJoin _ (fun z hz => (h2 z hz).2.2.1)]
      rfl
    have hbase : goBase (goJoin '/' [x]) = x :=
      goBase_goJoin [x] (by simp) (fun z hz => ⟨(hgood z hz).1, (hgood z hz).2.2.2⟩)
    have hcleaned : goClean (goJoin '/' [x]) = goJoin '/' [x] :=
      goClean_eq_self [x] (by simp)
        (fun z hz => ⟨(hgood z hz).1, (hgood z hz).2.1, (hgood z hz).2.2.1,
          (hgood z hz).2.2.2⟩)
    have hstep : ConvertToStorageName (goJoin '/' [x]) =
        (if goClean (goJoin '/' [x]) = claudeMdS ∨
            goClean (goJoin '/' [x]) = goBase (goJoin '/' [x]) then
          Except.ok (goBase (goJoin '/' [x]))
        else Except.ok (goJoin '~' (goSplit '/' (goClean (goJoin '/' [x]))))) := by
      unfold ConvertToStorageName
      rw [hval]
    have hx := h2 x (by simp)
    have hname : ConvertToStorageName (goJoin '/' [x]) = Except.ok x := by
      rw [hstep, if_pos (Or.inr (by rw [hcleaned, hbase]; rfl)), hbase]
    unfold roundTrip
    rw [hname]
    have hnt : occursIn tildeS x = false := by
      by_contra hc
      rw [Bool.not_eq_false] at hc
      exact hx.2.2.1 ((occursIn_singleton '~' x).mp hc)
    have hrp : ConvertToRepoPath x = x := by
      unfold ConvertToRepoPath
      rw [hnt]
      simp only [Bool.not_false, if_true]
      rw [hx.2.2.2.2]
      rfl
    show some (ConvertToRepoPath x) = some (goJoin '/' [x])
    rw [hrp]
    rfl
  | cons y ys =>
    have hname := storage_name_multi (x :: y :: ys) x y ys rfl h2
    unfold roundTrip
    rw [hname]
    have htilde : occursIn tildeS (goJoin '~' (x :: y :: ys)) = true := by
      apply (occursIn_singleton '~' _).mpr
      rw [show goJoin '~' (x :: y :: ys) = x ++ '~' :: goJoin '~' (y :: ys) from rfl]
      simp
    have hsplit : goSplit '~' (goJoin '~' (x :: y :: ys)) = x :: y :: ys :=
      goSplit_goJoin '~' (x :: y :: ys) (by simp) (fun z hz => (h2 z hz).2.2.1)
    have hany : (goSplit '~' (goJoin '~' (x :: y :: ys))).any
        (fun part => (part == dotdotS) || occursIn dotdotS part) = false := by
      rw [hsplit]
      rw [List.any_eq_false]
      intro p hp
      have hdd := (h2 p hp).2.2.2.2
      have hpne : (p == dotdotS) = false := by
        rw [beq_eq_false_iff_ne]
        intro he
        rw [he, dd_self] at hdd
        cases hdd
      rw [hpne, hdd]
      simp
    have hjp : goJoinPath (x :: y :: ys) = goJoin '/' (x :: y :: ys) := by
      unfold goJoinPath
      rw [filter_nonempty_eq_self _ (fun z hz => (hgood z hz).1), if_neg (by simp)]
      exact goClean_eq_self _ (by simp)
        (fun z hz => ⟨(hgood z hz).1, (hgood z hz).2.1, (hgood z hz).2.2.1,
          (hgood z hz).2.2.2⟩)
    have hrp : ConvertToRepoPath (goJoin '~' (x :: y :: ys)) =
        goJoin '/' (x :: y :: ys) := by
      unfold ConvertToRepoPath
      rw [htilde]
      simp only [Bool.not_true, Bool.false_eq_true, if_false]
      rw [hany]
      simp only [Bool.false_eq_true, if_false]
      rw [hsplit, hjp]
    show some (ConvertToRepoPath (goJoin '~' (x :: y :: ys))) =
      some (goJoin '/' (x :: y :: ys))
    rw [hrp]

/-- C1 witness: the concrete path from the specification round-trips. -/
theorem round_trip_c1_witness :
    roundTrip (("source/go/api/CLAUDE.md").data) =
      some (("source/go/api/CLAUDE.md").data) := by
  have h := round_trip_c1
    [("source").data, ("go").data, ("api").data, ("CLAUDE.md").data]
    (by decide) (by decide)
  exact h

/-- C9: for every input string, when ConvertToRepoPath returns a
non-empty result, that result contains no occurrence of ".." and so can
never name a parent-directory component. -/
theorem convertToRepoPath_no_dotdot (s : Str) (h : ConvertToRepoPath s ≠ []) :
    occursIn dotdotS (ConvertToRepoPath s) = false := by
  by_cases ht : occursIn tildeS s
  · -- tilde present: reconstructed from the split parts
    have hbr : ConvertToRepoPath s =
        (if (goSplit '~' s).any
            (fun part => (part == dotdotS) || occursIn dotdotS part) then []
         else goJoinPath (goSplit '~' s)) := by
      unfold ConvertToRepoPath
      rw [ht]
      rfl
    rw [hbr]
    by_cases hany : (goSplit '~' s).any
        (fun part => (part == dotdotS) || occursIn dotdotS part)
    · rw [if_pos hany]
      rfl
    · rw [if_neg hany]
      apply goJoinPath_no_dd
      intro p hp
      by_contra hc
      rw [Bool.not_eq_false] at hc
      rw [List.any_eq_true] at hany
      exact hany ⟨p, hp, by rw [hc]; simp⟩
  · -- no tilde: the input is returned unchanged (or rejected)
    have hbr : ConvertToRepoPath s = (if occursIn dotdotS s then [] else s) := by
      unfold ConvertToRepoPath
      have ht2 : occursIn tildeS s = false := by simpa using ht
      rw [ht2]
      rfl
    by_cases hdd : occursIn dotdotS s
    · exfalso
      apply h
      rw [hbr, if_pos hdd]
    · rw [hbr, if_neg hdd]
      simpa using hdd

/-- C9 witness: a concrete storage filename with a non-empty
reconstruction whose result is free of "..". -/
theorem convertToRepoPath_no_dotdot_witness :
    ConvertToRepoPath (("docs~api~CLAUDE.md").data) ≠ [] ∧
    occursIn dotdotS (ConvertToRepoPath (("docs~api~CLAUDE.md").data)) = false :=
  ⟨by decide, convertToRepoPath_no_dotdot (("docs~api~CLAUDE.md").data) (by decide)⟩

/-- C6 counterexample: NewPathConverter copies the repoName argument
verbatim, so an empty repository name yields a successfully constructed
converter whose RepoName field is the empty string, refuting the claim
that both fields are always non-empty. -/
theorem newPathConverter_c6_cex :
    (NewPathConverter (Except.ok (("/home/u").data)) (("alice").data) []).map
      PathConverter.RepoName = Except.ok [] := by decide

/-- C6 (amended): NewPathConverter fails exactly when the home-directory
lookup fails; on success the StorageRoot field is never empty and the
RepoName field equals the repoName argument verbatim, so it is empty
exactly when the argument is empty. -/
theorem newPathConverter_c6 (home user repoName e : Str) :
    (∃ pc, NewPathConverter (Except.ok home) user repoName = Except.ok pc ∧
      pc.StorageRoot ≠ [] ∧ pc.RepoName = repoName) ∧
    NewPathConverter (Except.error e) user repoName =
      Except.error (failedHomeS ++ e) := by
  constructor
  · refine ⟨_, rfl, ?_, rfl⟩
    exact goJoinPath_ne_nil _ dotClaudeS (by simp) (by decide)
  · rfl

theorem goSplit_length_two (c : Char) : ∀ (s : Str), c ∈ s →
    2 ≤ (goSplit c s).length := by
  intro s
  induction s with
  | nil => intro h; simp at h
  | cons a t ih =>
    intro hmem
    by_cases hac : a = c
    · subst hac
      simp only [goSplit, beq_self_eq_true, if_true, List.length_cons]
      have := List.length_pos.mpr (goSplit_ne_nil a t)
      omega
    · have hct : c ∈ t := by
        rcases List.mem_cons.mp hmem with h | h
        · exact absurd h.symm hac
        · exact h
      have hrec := ih hct
      have hac2 : (a == c) = false := by
        rw [beq_eq_false_iff_ne]; exact hac
      simp only [goSplit, hac2, Bool.false_eq_true, if_false]
      cases hsp : goSplit c t with
      | nil => exact absurd hsp (goSplit_ne_nil c t)
      | cons hh r =>
        rw [hsp] at hrec
        simp only [List.length_cons] at hrec ⊢
        omega

/-- C7 counterexample: for the SSH-shaped URL "git@a::b" the claim's
general rule demands the name "b" (the last '/'-segment of the final
colon part, which is non-empty, with three colon parts), but the code
fails because the part directly after the first colon is empty. -/
theorem extractRepoName_c7_cex :
    leadsWith gitAtS (("git@a::b").data) = true ∧
    occursIn colonS (("git@a::b").data) = true ∧
    2 ≤ (goSplit ':' (("git@a::b").data)).length ∧
    (goSplit '/' ((goSplit ':' (("git@a::b").data)).getLastD [])).getLastD [] =
      ("b").data ∧
    ExtractRepoName (("git@a::b").data) =
      Except.error (UrlErr.invalidSSH (("git@a::b").data)) ∧
    ExtractRepoName (("git@a::b").data) ≠ Except.ok (("b").data) := by decide

/-- C7 (amended): the eight literal cases hold as claimed, and for a
git@ URL containing a colon the function returns the last '/'-segment of
the final colon-delimited part, failing exactly when that segment is
empty or the colon part directly after the first colon is empty. -/
theorem extractRepoName_c7 :
    ExtractRepoName (("git@github.com:user/repo.git").data) =
      Except.ok (("repo.git").data) ∧
    ExtractRepoName (("git@github.com:user/repo").data) =
      Except.ok (("repo").data) ∧
    ExtractRepoName (("https://github.com/user/repo.git").data) =
      Except.ok (("repo.git").data) ∧
    ExtractRepoName (("https://github.com/user/repo").data) =
      Except.ok (("repo").data) ∧
    ExtractRepoName [] = Except.error UrlErr.emptyUrl ∧
    ExtractRepoName (("git@github.com").data) =
      Except.error (UrlErr.invalidSSH (("git@github.com").data)) ∧
    ExtractRepoName (("https://github.com").data) =
      Except.error (UrlErr.invalidHTTPS (("https://github.com").data)) ∧
    ExtractRepoName (("file:///path/to/repo").data) =
      Except.error (UrlErr.unsupported (("file:///path/to/repo").data)) ∧
    ∀ url, leadsWith gitAtS url = true → occursIn colonS url = true →
      ExtractRepoName url =
        (if (goSplit ':' url).getD 1 [] = [] ∨
            (goSplit '/' ((goSplit ':' url).getLastD [])).getLastD [] = [] then
          Except.error (UrlErr.invalidSSH url)
        else Except.ok ((goSplit '/' ((goSplit ':' url).getLastD [])).getLastD [])) := by
  refine ⟨by decide, by decide, by decide, by decide, by decide, by decide, by decide,
    by decide, ?_⟩
  intro url h1 h2
  have hne : url ≠ [] := by
    intro he
    rw [he] at h1
    exact absurd h1 (by decide)
  have hcolon : ':' ∈ url := (occursIn_singleton ':' url).mp h2
  have hlen : ¬((goSplit ':' url).length < 2) :=
    Nat.not_lt.mpr (goSplit_length_two ':' url hcolon)
  have hlen0 : ¬((goSplit '/' ((goSplit ':' url).getLastD [])).length = 0) := by
    have hpos := List.length_pos.mpr (goSplit_ne_nil '/' ((goSplit ':' url).getLastD []))
    omega
  unfold ExtractRepoName
  rw [if_neg hne, h1, h2]
  simp only [Bool.not_true, Bool.and_false, Bool.false_eq_true, if_false,
    Bool.and_true, if_true]
  by_cases hd1 : (goSplit ':' url).getD 1 [] = []
  · rw [if_pos (Or.inr hd1), if_pos (Or.inl hd1)]
  · by_cases hlast : (goSplit '/' ((goSplit ':' url).getLastD [])).getLastD [] = []
    · rw [if_neg (by rintro (hcon | hcon); exacts [hlen hcon, hd1 hcon]),
        if_pos (Or.inr hlast), if_pos (Or.inr hlast)]
    · rw [if_neg (by rintro (hcon | hcon); exacts [hlen hcon, hd1 hcon]),
        if_neg (by rintro (hcon | hcon); exacts [hlen0 hcon, hlast hcon]),
        if_neg (by rintro (hcon | hcon); exacts [hd1 hcon, hlast hcon])]

/-- C7 witness: a concrete instance of the amended SSH rule, where the
part after the first colon is non-empty and extraction succeeds. -/
theorem extractRepoName_c7_witness :
    ExtractRepoName (("git@h:a/b").data) = Except.ok (("b").data) := by
  have h := extractRepoName_c7.2.2.2.2.2.2.2.2 (("git@h:a/b").data)
    (by decide) (by decide)
  rw [h]
  decide

def c5Tree : List FsNode :=
  [FsNode.file (("CLAUDE.md").data) false false, FsNode.errNode (("bad").data)]

/-- C5 counterexample: a walk that first finds a CLAUDE.md file and then
hits an access error returns the error together with the non-empty
partial list, refuting the claim that partial results are discarded. -/
theorem findClaudeFiles_c5_cex :
    (FindClaudeFiles (("/repo").data) c5Tree).2.isSome = true ∧
    (FindClaudeFiles (("/repo").data) c5Tree).1 ≠ [] := by decide

theorem walkChildren_aborts (root rel nm : Str) (post : List FsNode) :
    ∀ (pre : List FsNode) (acc : List ClaudeFile),
    walkChildren root rel (pre ++ FsNode.errNode nm :: post) acc =
      ((walkChildren root rel pre acc).1,
        some (match (walkChildren root rel pre acc).2 with
              | none => WalkError.accessErr (childPath rel nm)
              | some e => e)) := by
  intro pre
  induction pre with
  | nil => intro acc; rfl
  | cons n rest ih =>
    intro acc
    have hstep : ∀ (ns : List FsNode),
        walkChildren root rel (n :: ns) acc =
          (match walkNode root rel n acc with
           | (acc2, none) => walkChildren root rel ns acc2
           | (acc2, some e) => (acc2, some e)) := fun ns => rfl
    rw [List.cons_append, hstep, hstep]
    cases hwn : walkNode root rel n acc with
    | mk acc2 rerr =>
      cases rerr with
      | none => exact ih acc2
      | some e => rfl

/-- C5 (amended): a walk error at any point aborts the discovery — the
entries after the first erroring step are never visited and the first
error is returned — but the partial list accumulated before the error is
returned together with the error, not discarded. -/
theorem findClaudeFiles_c5 (root nm : Str) (pre post : List FsNode) :
    FindClaudeFiles root (pre ++ FsNode.errNode nm :: post) =
      ((FindClaudeFiles root pre).1,
        some (match (FindClaudeFiles root pre).2 with
              | none => WalkError.accessErr (childPath [] nm)
              | some e => e)) :=
  walkChildren_aborts root [] nm post pre []

theorem myGet?Map {α β : Type} (g : α → β) : ∀ (l : List α) (i : Nat),
    (l.map g).get? i = (l.get? i).map g := by
  intro l
  induction l with
  | nil => intro i; cases i <;> rfl
  | cons x xs ih =>
    intro i
    cases i with
    | zero => rfl
    | succ j => exact ih j

/-- C2: when save has created and written the storage copy but removing
the original file fails, the record is Skipped with SkipReason
"remove failed", both Warning and Error are set, the just-created
storage copy is deleted again (no orphan), and the original file is
still present. -/
theorem saveFiles_remove_failed (input : List (ClaudeFile × SaveEnv))
    (pc : PathConverter) (i : Nat) (f : ClaudeFile) (env : SaveEnv)
    (content e sp : Str)
    (hget : input.get? i = some (f, env))
    (hval : ValidatePath f.RepoRelativePath = none)
    (hsym : f.IsSymlink = false)
    (hsp : pc.GetStoragePath f.RepoRelativePath = Except.ok sp)
    (hdir : env.ensureDirErr = none)
    (hread : env.readOutcome = Except.ok content)
    (hcreate : env.createOutcome = CreateOutcome.created)
    (hwrite : env.writeErr = none)
    (hrm : env.removeOrigErr = some e) :
    (SaveFiles input pc).get? i = some
      ⟨f.RepoRelativePath, sp, false, true, removeFailedS,
        warnSkip f.RepoRelativePath (failedRemoveS ++ e), some e⟩ ∧
    (SaveFilesFull input pc).get? i = some
      (⟨f.RepoRelativePath, sp, false, true, removeFailedS,
        warnSkip f.RepoRelativePath (failedRemoveS ++ e), some e⟩,
       ⟨false, true, false⟩) := by
  have hone : saveOne f pc env =
      (⟨f.RepoRelativePath, sp, false, true, removeFailedS,
        warnSkip f.RepoRelativePath (failedRemoveS ++ e), some e⟩,
       ⟨false, true, false⟩) := by
    unfold saveOne
    simp only [hval, hsym, hsp, hdir, hread, hcreate, hwrite, hrm,
      Bool.false_eq_true, if_false]
  have hfull : (SaveFilesFull input pc).get? i = some (saveOne f pc env) := by
    unfold SaveFilesFull
    rw [myGet?Map, hget]
    rfl
  have hres : (SaveFiles input pc).get? i = some ((saveOne f pc env).1) := by
    unfold SaveFiles
    rw [myGet?Map, hfull]
    rfl
  constructor
  · rw [hres, hone]
  · rw [hfull, hone]

def c2File : ClaudeFile := ⟨("/repo/CLAUDE.md").data, ("CLAUDE.md").data, false⟩

def c2Env : SaveEnv :=
  ⟨none, Except.ok (("content").data), CreateOutcome.created, none,
    some (("boom").data), Except.ok (("/s/r.git/CLAUDE.md").data), none, none⟩

def c2PC : PathConverter := ⟨("/s").data, ("r.git").data⟩

/-- C2 witness: a concrete save where only the removal of the original
fails, evaluated end to end. -/
theorem saveFiles_remove_failed_witness :
    (SaveFiles [(c2File, c2Env)] c2PC).get? 0 = some
      ⟨("CLAUDE.md").data, ("/s/r.git/CLAUDE.md").data, false, true, removeFailedS,
        warnSkip (("CLAUDE.md").data) (failedRemoveS ++ ("boom").data),
        some (("boom").data)⟩ ∧
    (SaveFilesFull [(c2File, c2Env)] c2PC).get? 0 = some
      (⟨("CLAUDE.md").data, ("/s/r.git/CLAUDE.md").data, false, true, removeFailedS,
        warnSkip (("CLAUDE.md").data) (failedRemoveS ++ ("boom").data),
        some (("boom").data)⟩,
       ⟨false, true, false⟩) :=
  saveFiles_remove_failed [(c2File, c2Env)] c2PC 0 c2File c2Env
    (("content").data) (("boom").data) (("/s/r.git/CLAUDE.md").data)
    (by decide) (by decide) (by decide) (by decide) (by decide) (by decide)
    (by decide) (by decide) (by decide)

/-- C3: when the restore target is occupied by a regular (non-symlink)
file, the record is Skipped with SkipReason "file exists" and a Warning,
and no filesystem mutation happens (the only mutation the loop body can
perform is symlink creation, and the flag stays false), so the existing
file is neither overwritten nor deleted. -/
theorem restoreFiles_file_exists (input : List (StoredFile × RestoreEnv))
    (i : Nat) (stored : StoredFile) (env : RestoreEnv) (ar tg rel : Str)
    (hget : input.get? i = some (stored, env))
    (h1 : env.absRepo = Except.ok ar)
    (h2 : env.absTarget = Except.ok tg)
    (h3 : env.relResult = Except.ok rel)
    (h4 : leadsWith dotdotS rel = false)
    (h5 : env.parentMissing = false)
    (h6 : env.target = TargetEntry.regular) :
    (RestoreFiles input).get? i = some
      ⟨stored.RepoRelativePath, false, true, fileExistsS,
        warnStor stored.RepoRelativePath regularExistsS stored.StoragePath,
        stored.StoragePath, none⟩ ∧
    (RestoreFilesFull input).get? i = some
      (⟨stored.RepoRelativePath, false, true, fileExistsS,
        warnStor stored.RepoRelativePath regularExistsS stored.StoragePath,
        stored.StoragePath, none⟩, false) := by
  have hone : restoreOne stored env =
      (⟨stored.RepoRelativePath, false, true, fileExistsS,
        warnStor stored.RepoRelativePath regularExistsS stored.StoragePath,
        stored.StoragePath, none⟩, false) := by
    unfold restoreOne
    simp only [h1, h2, h3, h4, h5, h6, Bool.false_eq_true, if_false]
  have hfull : (RestoreFilesFull input).get? i = some (restoreOne stored env) := by
    unfold RestoreFilesFull
    rw [myGet?Map, hget]
    rfl
  have hres : (RestoreFiles input).get? i = some ((restoreOne stored env).1) := by
    unfold RestoreFiles
    rw [myGet?Map, hfull]
    rfl
  constructor
  · rw [hres, hone]
  · rw [hfull, hone]

def c3Stored : StoredFile :=
  ⟨("docs~CLAUDE.md").data, ("docs/CLAUDE.md").data, ("/s/r.git/docs~CLAUDE.md").data⟩

def c3Env : RestoreEnv :=
  ⟨Except.ok (("/repo").data), Except.ok (("/repo/docs/CLAUDE.md").data),
    Except.ok (("docs/CLAUDE.md").data), false, TargetEntry.regular,
    Except.ok (("/s/r.git/docs~CLAUDE.md").data), none⟩

/-- C3 witness: a concrete restore into an occupied target. -/
theorem restoreFiles_file_exists_witness :
    (RestoreFiles [(c3Stored, c3Env)]).get? 0 = some
      ⟨("docs/CLAUDE.md").data, false, true, fileExistsS,
        warnStor (("docs/CLAUDE.md").data) regularExistsS
          (("/s/r.git/docs~CLAUDE.md").data),
        ("/s/r.git/docs~CLAUDE.md").data, none⟩ ∧
    (RestoreFilesFull [(c3Stored, c3Env)]).get? 0 = some
      (⟨("docs/CLAUDE.md").data, false, true, fileExistsS,
        warnStor (("docs/CLAUDE.md").data) regularExistsS
          (("/s/r.git/docs~CLAUDE.md").data),
        ("/s/r.git/docs~CLAUDE.md").data, none⟩, false) :=
  restoreFiles_file_exists [(c3Stored, c3Env)] 0 c3Stored c3Env
    (("/repo").data) (("/repo/docs/CLAUDE.md").data) (("docs/CLAUDE.md").data)
    (by decide) (by decide) (by decide) (by decide) (by decide) (by decide)
    (by decide)

/-- C4: a discovered CLAUDE.md symlink whose resolved target does not
begin with the computed storage directory yields a record that is
Skipped with SkipReason "symlink points outside storage" and no Error,
and the removed flag stays false — the symlink is not removed. -/
theorem clearSymlinks_outside_storage (f : ClaudeFile) (env : ClearEnv)
    (pc : PathConverter) (rest : List (ClaudeFile × ClearEnv)) (tgt : Str)
    (hsym : f.IsSymlink = true)
    (hread : env.readlinkOutcome = Except.ok tgt)
    (houtside : leadsWith pc.GetRepoStorageDir (resolveAbs env tgt) = false) :
    clearOne f env pc.GetRepoStorageDir =
      some (⟨f.RepoRelativePath, false, true, outsideStorageS, none⟩, false) ∧
    ClearSymlinks ((f, env) :: rest) none pc =
      (⟨f.RepoRelativePath, false, true, outsideStorageS, none⟩, false) ::
        ClearSymlinks rest none pc := by
  have h1 : clearOne f env pc.GetRepoStorageDir =
      some (⟨f.RepoRelativePath, false, true, outsideStorageS, none⟩, false) := by
    unfold clearOne
    simp only [hsym, hread, houtside, Bool.true_eq_false, if_false, if_true]
  constructor
  · exact h1
  · show ((f, env) :: rest).filterMap
        (fun pr => clearOne pr.1 pr.2 pc.GetRepoStorageDir) = _
    rw [List.filterMap_cons]
    simp only [h1]
    rfl

def c4File : ClaudeFile := ⟨("/repo/CLAUDE.md").data, ("CLAUDE.md").data, true⟩

def c4Env : ClearEnv := ⟨Except.ok (("/elsewhere/x").data), none, none⟩

def c4PC : PathConverter := ⟨("/s").data, ("r.git").data⟩

/-- C4 witness: a concrete foreign symlink is skipped and kept. -/
theorem clearSymlinks_outside_storage_witness :
    clearOne c4File c4Env c4PC.GetRepoStorageDir =
      some (⟨("CLAUDE.md").data, false, true, outsideStorageS, none⟩, false) ∧
    ClearSymlinks [(c4File, c4Env)] none c4PC =
      [(⟨("CLAUDE.md").data, false, true, outsideStorageS, none⟩, false)] := by
  have h := clearSymlinks_outside_storage c4File c4Env c4PC []
    (("/elsewhere/x").data) (by decide) (by decide) (by decide)
  exact ⟨h.1, h.2⟩

theorem saveOne_excl (f : ClaudeFile) (pc : PathConverter) (env : SaveEnv) :
    ¬((saveOne f pc env).1.Success = true ∧ (saveOne f pc env).1.Skipped = true) := by
  unfold saveOne
  repeat' split
  all_goals simp

theorem saveOne_flag (f : ClaudeFile) (pc : PathConverter) (env : SaveEnv) :
    (saveOne f pc env).1.Success = true ∨ (saveOne f pc env).1.Skipped = true := by
  unfold saveOne
  repeat' split
  all_goals simp

theorem restoreOne_excl (stored : StoredFile) (env : RestoreEnv) :
    ¬((restoreOne stored env).1.Success = true ∧
      (restoreOne stored env).1.Skipped = true) := by
  unfold restoreOne
  repeat' split
  all_goals simp

theorem clearOne_excl (f : ClaudeFile) (env : ClearEnv) (sd : Str)
    (rb : ClearResult × Bool) (h : clearOne f env sd = some rb) :
    ¬(rb.1.Success = true ∧ rb.1.Skipped = true) := by
  unfold clearOne at h
  repeat' split at h
  all_goals try exact Option.noConfusion h
  all_goals rw [← Option.some_inj.mp h]
  all_goals simp

/-- C8: every record produced by SaveFiles, RestoreFiles or
ClearSymlinks has at most one of the Success and Skipped flags set. -/
theorem results_exclusive
    (sIn : List (ClaudeFile × SaveEnv)) (pcS : PathConverter)
    (rIn : List (StoredFile × RestoreEnv))
    (cIn : List (ClaudeFile × ClearEnv)) (discErr : Option WalkError)
    (pcC : PathConverter) :
    (∀ r ∈ SaveFiles sIn pcS, ¬(r.Success = true ∧ r.Skipped = true)) ∧
    (∀ r ∈ RestoreFiles rIn, ¬(r.Success = true ∧ r.Skipped = true)) ∧
    (∀ rb ∈ ClearSymlinks cIn discErr pcC,
      ¬(rb.1.Success = true ∧ rb.1.Skipped = true)) := by
  refine ⟨?_, ?_, ?_⟩
  · intro r hr
    unfold SaveFiles SaveFilesFull at hr
    rw [List.map_map] at hr
    obtain ⟨pr, _, heq⟩ := List.mem_map.mp hr
    rw [← heq]
    exact saveOne_excl pr.1 pcS pr.2
  · intro r hr
    unfold RestoreFiles RestoreFilesFull at hr
    rw [List.map_map] at hr
    obtain ⟨pr, _, heq⟩ := List.mem_map.mp hr
    rw [← heq]
    exact restoreOne_excl pr.1 pr.2
  · intro rb hrb
    unfold ClearSymlinks at hrb
    cases discErr with
    | some e => simp at hrb
    | none =>
      obtain ⟨pr, _, heq⟩ := List.mem_filterMap.mp hrb
      exact clearOne_excl pr.1 pr.2 _ rb heq

def c8File : ClaudeFile := ⟨("/repo/CLAUDE.md").data, ("CLAUDE.md").data, true⟩

def c8Env : SaveEnv :=
  ⟨none, Except.ok [], CreateOutcome.created, none, none, Except.ok [], none, none⟩

def c8PC : PathConverter := ⟨("/s").data, ("r.git").data⟩

/-- C8 witness: the invariant applied to a concrete record of a
concrete SaveFiles run (an "already symlink" skip). -/
theorem results_exclusive_witness :
    ¬((⟨("CLAUDE.md").data, [], false, true, alreadySymlinkS, [],
        none⟩ : SaveResult).Success = true ∧
      (⟨("CLAUDE.md").data, [], false, true, alreadySymlinkS, [],
        none⟩ : SaveResult).Skipped = true) :=
  (results_exclusive [(c8File, c8Env)] c8PC [] [] none c8PC).1 _ (by decide)

/-- C10: every record of SaveFiles has Success or Skipped set, so the
error branch of the save command's result loop can never run and the
printed summary always reports zero errors. -/
theorem save_errors_zero (input : List (ClaudeFile × SaveEnv)) (pc : PathConverter) :
    (∀ r ∈ SaveFiles input pc, r.Success = true ∨ r.Skipped = true) ∧
    (runSaveCounters (SaveFiles input pc)).2.2 = 0 := by
  have hall : ∀ r ∈ SaveFiles input pc, r.Success = true ∨ r.Skipped = true := by
    intro r hr
    unfold SaveFiles SaveFilesFull at hr
    rw [List.map_map] at hr
    obtain ⟨pr, _, heq⟩ := List.mem_map.mp hr
    rw [← heq]
    exact saveOne_flag pr.1 pc pr.2
  refine ⟨hall, ?_⟩
  unfold runSaveCounters
  have key : ∀ (l : List SaveResult) (s k e : Nat),
      (∀ r ∈ l, r.Success = true ∨ r.Skipped = true) →
      (l.foldl saveTally (s, k, e)).2.2 = e := by
    intro l
    induction l with
    | nil => intro s k e _; rfl
    | cons r t ih =>
      intro s k e h
      rw [List.foldl_cons]
      by_cases hs : r.Success = true
      · rw [show saveTally (s, k, e) r = (s + 1, k, e) from by
          unfold saveTally; rw [if_pos hs]]
        exact ih _ _ _ (fun z hz => h z (List.mem_cons_of_mem r hz))
      · have hk : r.Skipped = true := (h r (by simp)).resolve_left hs
        rw [show saveTally (s, k, e) r = (s, k + 1, e) from by
          unfold saveTally; rw [if_neg hs, if_pos hk]]
        exact ih _ _ _ (fun z hz => h z (List.mem_cons_of_mem r hz))
  exact key _ 0 0 0 hall

def c10File : ClaudeFile := ⟨("/repo/CLAUDE.md").data, ("CLAUDE.md").data, false⟩

def c10Env : SaveEnv :=
  ⟨none, Except.ok (("body").data), CreateOutcome.created, none, none,
    Except.ok (("/s/r.git/CLAUDE.md").data), none, none⟩

def c10PC : PathConverter := ⟨("/s").data, ("r.git").data⟩

/-- C10 witness: the error counter of a concrete save run is zero. -/
theorem save_errors_zero_witness :
    (runSaveCounters (SaveFiles [(c10File, c10Env)] c10PC)).2.2 = 0 :=
  (save_errors_zero [(c10File, c10Env)] c10PC).2
